import Mathlib

/-!
Verification of the Lumina timeline composition engine.

This file gives a shallow embedding of the timeline data model and of the
editing operations of src/components/Editor.tsx (first editor variant),
src/components/VideoPlayer.tsx, the VideoPlayer embedded in
src/components/AIAssistant.tsx and the Timeline component, and proves the
spec-level properties about them.

Modelling conventions:
* JavaScript numbers are modelled as exact rationals; all the verified
  properties are about the exact arithmetic the code performs.
* generateId() produces a fresh random string id; it is modelled by
  threading a natural-number counter and handing out successive ids.
* React state updates (setClips etc.) are modelled by returning the new
  value of the state; each handler becomes a pure function of its inputs.
-/

namespace Lumina

/-- Clip kind, from the TimelineClip.type field of types.ts. -/
inductive ClipType
  | video
  | image
deriving DecidableEq, Repr

/-- TransitionType of types.ts. -/
inductive TransitionType
  | none
  | fade
  | slideLeft
  | slideRight
  | zoomIn
  | zoomOut
  | blurDissolve
deriving DecidableEq, Repr

/-- FilterType of types.ts. -/
inductive FilterType
  | none
  | grayscale
  | sepia
  | vintage
  | cyberpunk
  | warm
  | invert
  | blur
  | dramatic
  | noir
  | technicolor
deriving DecidableEq, Repr

/-- TimelineClip of types.ts (the later revision, with filter and
transition fields). -/
structure TimelineClip where
  id : Nat
  type : ClipType
  src : String
  name : String
  start : ℚ
  duration : ℚ
  offset : ℚ
  filter : Option FilterType
  transitionIn : Option TransitionType
  transitionInDuration : Option ℚ
  transitionOut : Option TransitionType
  transitionOutDuration : Option ℚ
deriving DecidableEq, Repr

/-- AudioClip as constructed and consumed in Editor.tsx (id, type: audio,
src, name, start, duration, offset, volume); the constant type tag is
omitted. -/
structure AudioClip where
  id : Nat
  src : String
  name : String
  start : ℚ
  duration : ℚ
  offset : ℚ
  volume : ℚ
deriving DecidableEq, Repr

/-- Subtitle of types.ts. -/
structure Subtitle where
  id : Nat
  text : String
  start : ℚ
  duration : ℚ
deriving DecidableEq, Repr

/-- The 0.01 second epsilon guard used by the playhead split/trim/delete
handlers in Editor.tsx. -/
def epsilon : ℚ := 1 / 100

/-- The 1/60 second frame step of handleMoveVideoClip. -/
def frameStep : ℚ := 1 / 60

/-- JavaScript Math.round: round half toward positive infinity. -/
def jsRound (x : ℚ) : ℤ := ⌊x + 1 / 2⌋

/-- calculateProjectDuration of Editor.tsx: the maximum clip end over the
video and audio tracks, floored at 0 (Math.max(maxVideoEnd, maxAudioEnd, 0),
where each reduce starts from 0). -/
def calculateProjectDuration (videoClips : List TimelineClip) (audioTracks : List AudioClip) : ℚ :=
  let maxVideoEnd := videoClips.foldl (fun m c => max m (c.start + c.duration)) 0
  let maxAudioEnd := audioTracks.foldl (fun m c => max m (c.start + c.duration)) 0
  max (max maxVideoEnd maxAudioEnd) 0

/-- timelineDuration of the Timeline component: Math.max(duration, 10),
the 10 second minimum ruler length. -/
def timelineDuration (duration : ℚ) : ℚ := max duration 10

/-- The left-to-right ripple walk of handleMoveVideoClip: each clip start is
forced up to the running cursor, and the cursor advances to the clip end
(sorted.map with the mutable cursor variable). -/
def rippleWalk (cursor : ℚ) : List TimelineClip → List TimelineClip
  | [] => []
  | c :: rest =>
    let s := max c.start cursor
    { c with start := s } :: rippleWalk (s + c.duration) rest

/-- The sort step of handleMoveVideoClip: JavaScript Array.prototype.sort
with comparator (a, b) => a.start - b.start is a stable ascending sort,
modelled by the stable mergeSort. -/
def sortByStart (l : List TimelineClip) : List TimelineClip :=
  l.mergeSort fun a b => decide (a.start ≤ b.start)

/-- handleMoveVideoClip of Editor.tsx: clamp and frame-snap the requested
start, set it on the moved clip, sort by start, then ripple left to right. -/
def handleMoveVideoClip (clipId : Nat) (newStart : ℚ) (prevClips : List TimelineClip) : List TimelineClip :=
  match prevClips.find? (fun clip => clip.id == clipId) with
  | Option.none => prevClips
  | some _ =>
    let desiredStart := max 0 ((jsRound (newStart / frameStep) : ℚ) * frameStep)
    let moved := prevClips.map fun clip =>
      if clip.id == clipId then { clip with start := desiredStart } else clip
    rippleWalk 0 (sortByStart moved)

/-- The per-clip case of handleTrimLeftAtPlayhead (video list): a clip is
mutated only when the playhead is strictly inside it with the epsilon
guard; its start moves to the playhead, its duration shrinks to end - t and
its source offset grows by the trimmed amount. -/
def trimLeftVideoClip (t : ℚ) (clip : TimelineClip) : TimelineClip :=
  let e := clip.start + clip.duration
  if clip.start + epsilon < t ∧ t < e - epsilon then
    { clip with start := t, duration := e - t, offset := clip.offset + (t - clip.start) }
  else clip

/-- handleTrimLeftAtPlayhead of Editor.tsx restricted to the video track. -/
def handleTrimLeftVideo (t : ℚ) (clips : List TimelineClip) : List TimelineClip :=
  clips.map (trimLeftVideoClip t)

/-- The per-clip case of handleTrimLeftAtPlayhead for the audio track. -/
def trimLeftAudioClip (t : ℚ) (clip : AudioClip) : AudioClip :=
  let e := clip.start + clip.duration
  if clip.start + epsilon < t ∧ t < e - epsilon then
    { clip with start := t, duration := e - t, offset := clip.offset + (t - clip.start) }
  else clip

/-- handleTrimLeftAtPlayhead of Editor.tsx restricted to the audio track. -/
def handleTrimLeftAudio (t : ℚ) (clips : List AudioClip) : List AudioClip :=
  clips.map (trimLeftAudioClip t)

/-- The per-clip case of handleTrimRightAtPlayhead (video list): an
epsilon-guarded active clip keeps its start and its duration becomes
t - start. -/
def trimRightVideoClip (t : ℚ) (clip : TimelineClip) : TimelineClip :=
  let e := clip.start + clip.duration
  if clip.start + epsilon < t ∧ t < e - epsilon then
    { clip with duration := t - clip.start }
  else clip

/-- handleTrimRightAtPlayhead of Editor.tsx restricted to the video track. -/
def handleTrimRightVideo (t : ℚ) (clips : List TimelineClip) : List TimelineClip :=
  clips.map (trimRightVideoClip t)

/-- The per-clip case of handleTrimRightAtPlayhead for the audio track. -/
def trimRightAudioClip (t : ℚ) (clip : AudioClip) : AudioClip :=
  let e := clip.start + clip.duration
  if clip.start + epsilon < t ∧ t < e - epsilon then
    { clip with duration := t - clip.start }
  else clip

/-- handleTrimRightAtPlayhead of Editor.tsx restricted to the audio track. -/
def handleTrimRightAudio (t : ℚ) (clips : List AudioClip) : List AudioClip :=
  clips.map (trimRightAudioClip t)

/-- handleDeleteAtPlayhead of Editor.tsx restricted to the video track:
keep exactly the clips failing t >= start + epsilon && t < end - epsilon.
Note the left edge of this guard is non-strict, unlike split and trim. -/
def handleDeleteVideo (t : ℚ) (clips : List TimelineClip) : List TimelineClip :=
  clips.filter fun clip =>
    !(decide (clip.start + epsilon ≤ t) && decide (t < clip.start + clip.duration - epsilon))

/-- handleDeleteAtPlayhead of Editor.tsx restricted to the audio track. -/
def handleDeleteAudio (t : ℚ) (clips : List AudioClip) : List AudioClip :=
  clips.filter fun clip =>
    !(decide (clip.start + epsilon ≤ t) && decide (t < clip.start + clip.duration - epsilon))

/-- The per-clip case of handleSplitAtPlayhead (video list): a clip
strictly containing the playhead (with the epsilon guard) is replaced by a
left piece losing transitionOut and a right piece starting at the playhead,
with its source offset advanced by the left duration, losing transitionIn;
other clips are passed through unchanged. The two fresh ids come from the
threaded counter. -/
def splitOneVideo (splitTime : ℚ) (clip : TimelineClip) (nextId : Nat) : List TimelineClip × Nat :=
  let clipEnd := clip.start + clip.duration
  if clip.start + epsilon < splitTime ∧ splitTime < clipEnd - epsilon then
    let leftDuration := splitTime - clip.start
    let rightDuration := clip.duration - leftDuration
    let leftClip : TimelineClip :=
      { clip with
          id := nextId
          duration := leftDuration
          transitionOut := Option.none
          transitionOutDuration := Option.none }
    let rightClip : TimelineClip :=
      { clip with
          id := nextId + 1
          start := splitTime
          duration := rightDuration
          offset := clip.offset + leftDuration
          transitionIn := Option.none
          transitionInDuration := Option.none }
    ([leftClip, rightClip], nextId + 2)
  else ([clip], nextId)

/-- handleSplitAtPlayhead of Editor.tsx restricted to the video track: the
for loop over clips, pushing the pieces of each clip in order. -/
def splitVideoAtPlayhead (splitTime : ℚ) : List TimelineClip → Nat → List TimelineClip × Nat
  | [], n => ([], n)
  | c :: rest, n =>
    let p := splitOneVideo splitTime c n
    let q := splitVideoAtPlayhead splitTime rest p.2
    (p.1 ++ q.1, q.2)

/-- The recalculateTimeline helper inside applyAIAction, generalised over
the running start (the mutable currentStart variable, initially 0): every
clip is repositioned to begin where the previous one ends. -/
def recalcFrom (currentStart : ℚ) : List TimelineClip → List TimelineClip
  | [] => []
  | c :: rest => { c with start := currentStart } :: recalcFrom (currentStart + c.duration) rest

/-- recalculateTimeline of applyAIAction in Editor.tsx. -/
def recalculateTimeline (list : List TimelineClip) : List TimelineClip :=
  recalcFrom 0 list

/-- The structural clip edits of the AIAction vocabulary (types.ts), with
the parameters each case of applyAIAction reads. Optional parameters keep
their optionality; the || defaults of the code are applied at use sites. -/
inductive AIStructAction
  | removeClip (targetClipId : Option Nat)
  | trimClip (targetClipId : Option Nat) (startOffset endOffset : Option ℚ)
  | splitClip (timestamp : Option ℚ)
  | keepOnlyHighlights (ranges : List (ℚ × ℚ)) (transition : TransitionType) (filter : FilterType)

/-- The highlight-clip construction loop of the keep_only_highlights case:
each range becomes a clip starting at the accumulated start, playing the
source from range.start, with the chosen filter, a transition-in from the
second clip on, and transitionInDuration 0.5. -/
def buildHighlights (orig : TimelineClip) (transitionType : TransitionType) (filterType : FilterType) :
    List (ℚ × ℚ) → ℚ → Nat → Nat → List TimelineClip
  | [], _, _, _ => []
  | r :: rest, currentStart, nextId, i =>
    let clipDuration := r.2 - r.1
    let hl : TimelineClip :=
      { id := nextId
        type := ClipType.video
        src := orig.src
        name := orig.name ++ " - Highlight " ++ toString (i + 1)
        start := currentStart
        duration := clipDuration
        offset := r.1
        filter := if filterType ≠ FilterType.none then some filterType else Option.none
        transitionIn := if 0 < i then some transitionType else Option.none
        transitionInDuration := some (1 / 2)
        transitionOut := Option.none
        transitionOutDuration := Option.none }
    hl :: buildHighlights orig transitionType filterType rest (currentStart + clipDuration) (nextId + 1) (i + 1)

/-- The clip-list effect of applyAIAction in Editor.tsx for the structural
cases, with generateId modelled by the threaded counter. Each case follows
the guards of the corresponding switch case; when a guard fails the clip
list is returned unchanged. -/
def applyAIClips (a : AIStructAction) (currentClips : List TimelineClip) (nextId : Nat) : List TimelineClip :=
  match a with
  | AIStructAction.removeClip targetId =>
    match targetId with
    | Option.none => currentClips
    | some tid =>
      if 1 < currentClips.length then
        recalculateTimeline (currentClips.filter fun c => c.id != tid)
      else currentClips
  | AIStructAction.trimClip targetId startOffset endOffset =>
    match targetId with
    | Option.none => currentClips
    | some tid =>
      let sOffset := startOffset.getD 0
      let eOffset := endOffset.getD 0
      recalculateTimeline (currentClips.map fun c =>
        if c.id == tid then
          { c with duration := max (1 / 10) (c.duration - sOffset - eOffset), offset := c.offset + sOffset }
        else c)
  | AIStructAction.splitClip timestamp =>
    match timestamp with
    | Option.none => currentClips
    | some ts =>
      match currentClips.findIdx? (fun c => decide (c.start ≤ ts) && decide (ts < c.start + c.duration)) with
      | Option.none => currentClips
      | some idx =>
        match currentClips[idx]? with
        | Option.none => currentClips
        | some c =>
          let rel := ts - c.start
          let c1 : TimelineClip := { c with id := nextId, duration := rel }
          let c2 : TimelineClip :=
            { c with id := nextId + 1, start := ts, duration := c.duration - rel, offset := c.offset + rel }
          recalculateTimeline (currentClips.take idx ++ [c1, c2] ++ currentClips.drop (idx + 1))
  | AIStructAction.keepOnlyHighlights ranges transitionType filterType =>
    if ranges ≠ [] ∧ currentClips ≠ [] then
      match currentClips.find? (fun c => c.type == ClipType.video) with
      | Option.none => currentClips
      | some originalClip => buildHighlights originalClip transitionType filterType ranges 0 nextId 0
    else currentClips

/-- The guard under which each structural AI action actually edits the clip
list (the conditions of the corresponding case in applyAIAction). -/
def aiActionApplies (a : AIStructAction) (currentClips : List TimelineClip) : Prop :=
  match a with
  | AIStructAction.removeClip targetId => targetId.isSome ∧ 1 < currentClips.length
  | AIStructAction.trimClip targetId _ _ => targetId.isSome
  | AIStructAction.splitClip timestamp =>
    match timestamp with
    | Option.none => False
    | some ts =>
      (currentClips.findIdx? (fun c => decide (c.start ≤ ts) && decide (ts < c.start + c.duration))).isSome
  | AIStructAction.keepOnlyHighlights ranges _ _ =>
    ranges ≠ [] ∧ (currentClips.find? (fun c => c.type == ClipType.video)).isSome

/-- HistoryState of Editor.tsx: the (clips, audioClips, subtitles) snapshot
deep-copied into the undo history. -/
structure HistoryState where
  clips : List TimelineClip
  audioClips : List AudioClip
  subtitles : List Subtitle
deriving DecidableEq, Repr

/-- The history ring buffer and cursor of Editor.tsx
(useState history = [], historyIndex = -1). -/
structure EditorHistory where
  history : List HistoryState
  historyIndex : ℤ
deriving DecidableEq, Repr

/-- The history tracking useEffect of Editor.tsx, run after a mutation has
produced newState: states with no video clips and no subtitles are skipped;
otherwise the redo tail is discarded, the buffer is capped at 50 entries,
the snapshot is appended and the cursor advances (capped at 49). The
isLoadingMedia and isUndoRedoAction early returns are modelled by invoking
this function only for genuine editing mutations. -/
def recordHistory (newState : HistoryState) (h : EditorHistory) : EditorHistory :=
  if newState.clips = [] ∧ newState.subtitles = [] then h
  else
    let trimmed := h.history.take (h.historyIndex + 1).toNat
    let limited := if 50 ≤ trimmed.length then trimmed.drop 1 else trimmed
    { history := limited ++ [newState], historyIndex := min (h.historyIndex + 1) 49 }

/-- handleUndo of Editor.tsx: a no-op when historyIndex <= 0, otherwise
restore the snapshot before the cursor and step the cursor back. The code
indexes history[historyIndex - 1] directly; that read is in range whenever
the guard passes and the cursor invariant holds, so the out-of-range branch
(undefined in JavaScript) is modelled as restoring nothing. -/
def handleUndo (current : HistoryState) (h : EditorHistory) : HistoryState × EditorHistory :=
  if h.historyIndex ≤ 0 then (current, h)
  else
    match h.history[(h.historyIndex - 1).toNat]? with
    | some prevState => (prevState, { h with historyIndex := h.historyIndex - 1 })
    | Option.none => (current, { h with historyIndex := h.historyIndex - 1 })

/-- handleRedo of Editor.tsx: a no-op when historyIndex >= history.length - 1,
otherwise restore the snapshot after the cursor and step the cursor
forward. -/
def handleRedo (current : HistoryState) (h : EditorHistory) : HistoryState × EditorHistory :=
  if (h.history.length : ℤ) - 1 ≤ h.historyIndex then (current, h)
  else
    match h.history[(h.historyIndex + 1).toNat]? with
    | some nextState => (nextState, { h with historyIndex := h.historyIndex + 1 })
    | Option.none => (current, { h with historyIndex := h.historyIndex + 1 })

/-- A JavaScript number as produced by media-duration probing: a finite
value, positive infinity (live or malformed metadata), or NaN. -/
inductive JSNum
  | num (q : ℚ)
  | posInf
  | nan
deriving DecidableEq, Repr

/-- JavaScript addition restricted to the values reachable here. -/
def JSNum.add : JSNum → JSNum → JSNum
  | JSNum.num a, JSNum.num b => JSNum.num (a + b)
  | JSNum.nan, _ => JSNum.nan
  | _, JSNum.nan => JSNum.nan
  | JSNum.posInf, _ => JSNum.posInf
  | _, JSNum.posInf => JSNum.posInf

/-- Number.isFinite. -/
def JSNum.isFinite : JSNum → Bool
  | JSNum.num _ => true
  | _ => false

/-- The comparison duration > 0 in JavaScript. -/
def JSNum.gtZero : JSNum → Bool
  | JSNum.num q => decide (0 < q)
  | JSNum.posInf => true
  | JSNum.nan => false

/-- Outcome of probing a media file with a detached video/audio element in
handleFileUpload: loadedmetadata fired with the reported duration, or the
error handler fired. -/
inductive ProbeResult
  | metadata (d : JSNum)
  | err
deriving DecidableEq, Repr

/-- The clip as inserted by handleFileUpload, keeping the JavaScript-number
duration so that non-finite probe results stay representable. -/
structure ImportClip where
  id : Nat
  type : ClipType
  start : JSNum
  duration : JSNum
  offset : ℚ
deriving DecidableEq, Repr

/-- The start: updatedClips.reduce((acc, c) => acc + c.duration, 0)
expression of handleFileUpload. -/
def sumImportDurations (clips : List ImportClip) : JSNum :=
  clips.foldl (fun acc c => acc.add c.duration) (JSNum.num 0)

/-- The duration handleFileUpload uses for a video file: the metadata
duration is resolved unchecked; only the error handler substitutes the 5
second fallback. -/
def probedVideoDuration : ProbeResult → JSNum
  | ProbeResult.metadata d => d
  | ProbeResult.err => JSNum.num 5

/-- The duration handleFileUpload uses for an audio file: non-finite or
non-positive metadata falls back to 3 seconds, as does the error handler. -/
def probedAudioDuration : ProbeResult → JSNum
  | ProbeResult.metadata d => if d.isFinite && d.gtZero then d else JSNum.num 3
  | ProbeResult.err => JSNum.num 3

/-- The video branch of the per-file loop of handleFileUpload (upload
succeeded): the new clip is always pushed, at the sum of the durations of
the clips accumulated so far, with whatever duration the probe produced. -/
def importVideoFile (p : ProbeResult) (updatedClips : List ImportClip) (id : Nat) : List ImportClip :=
  updatedClips ++
    [{ id := id, type := ClipType.video, start := sumImportDurations updatedClips,
       duration := probedVideoDuration p, offset := 0 }]

/-- The image branch of the per-file loop of handleFileUpload: images are
not probed and always get the 5 second default duration. -/
def importImageFile (updatedClips : List ImportClip) (id : Nat) : List ImportClip :=
  updatedClips ++
    [{ id := id, type := ClipType.image, start := sumImportDurations updatedClips,
       duration := JSNum.num 5, offset := 0 }]

/-- getOpacity of VideoPlayer.tsx: a linear ramp anchored at global
timeline time 0 over the first fadeIn seconds, a symmetric ramp anchored at
the global duration, the fade-out branch overwriting the fade-in one, all
clamped into [0, 1]. -/
def getOpacity (fadeIn fadeOut duration currentTime : ℚ) : ℚ :=
  let o1 : ℚ := 1
  let o2 := if 0 < fadeIn ∧ currentTime < fadeIn then currentTime / fadeIn else o1
  let o3 :=
    if 0 < fadeOut ∧ 0 < duration ∧ duration - fadeOut < currentTime then
      (duration - currentTime) / fadeOut
    else o2
  max 0 (min 1 o3)

/-- The 0.5 second TRANSITION_DURATION constant of the VideoPlayer embedded
in AIAssistant.tsx. -/
def transitionDuration : ℚ := 1 / 2

/-- The transitionIn && transitionIn !== 'none' truthiness test. -/
def transitionTagActive : Option TransitionType → Bool
  | some tt => tt != TransitionType.none
  | Option.none => false

/-- The opacity component of transitionEffect in the VideoPlayer embedded
in AIAssistant.tsx: the global fadeIn/fadeOut ramps are computed from
timeInClip = timelineTime - clipStart and timeLeft = clipDuration -
timeInClip, so they are anchored at each clip boundary; an active fade
transition then multiplies the result by its progress. -/
def transitionEffectOpacity (fadeIn fadeOut timelineTime clipStart clipDuration : ℚ)
    (transitionIn transitionOut : Option TransitionType) : ℚ :=
  let timeInClip := timelineTime - clipStart
  let timeLeft := clipDuration - timeInClip
  let base :=
    if 0 < fadeIn ∧ timeInClip < fadeIn then timeInClip / fadeIn
    else if 0 < fadeOut ∧ timeLeft < fadeOut then timeLeft / fadeOut
    else 1
  if timeInClip < transitionDuration ∧ transitionTagActive transitionIn then
    let p := timeInClip / transitionDuration
    if transitionIn = some TransitionType.fade then base * p else base
  else if timeLeft < transitionDuration ∧ transitionTagActive transitionOut then
    let p := 1 - timeLeft / transitionDuration
    if transitionOut = some TransitionType.fade then base * (1 - p) else base
  else base

/-- The editing operations quantified over by the no-overlap invariant:
add a video clip by file import (with its probed duration), move a video
clip, trim either side at the playhead, split at the playhead. -/
inductive EditOp
  | importMedia (probedDuration : ℚ)
  | move (clipId : Nat) (newStart : ℚ)
  | trimLeft (t : ℚ)
  | trimRight (t : ℚ)
  | split (t : ℚ)

/-- Whether an operation is a file import. -/
def EditOp.isImport : EditOp → Bool
  | EditOp.importMedia _ => true
  | _ => false

/-- The clip handleFileUpload pushes for a video file whose finite duration
d was probed: it starts at the sum of the durations of the existing clips. -/
def importedClip (id : Nat) (d : ℚ) (clips : List TimelineClip) : TimelineClip :=
  { id := id
    type := ClipType.video
    src := ""
    name := ""
    start := clips.foldl (fun acc c => acc + c.duration) 0
    duration := d
    offset := 0
    filter := Option.none
    transitionIn := Option.none
    transitionInDuration := Option.none
    transitionOut := Option.none
    transitionOutDuration := Option.none }

/-- One editing operation applied to the video track, threading the fresh
id counter. -/
def applyEditOp : EditOp → List TimelineClip × Nat → List TimelineClip × Nat
  | EditOp.importMedia d, (clips, n) => (clips ++ [importedClip n d clips], n + 1)
  | EditOp.move cid ns, (clips, n) => (handleMoveVideoClip cid ns clips, n)
  | EditOp.trimLeft t, (clips, n) => (handleTrimLeftVideo t clips, n)
  | EditOp.trimRight t, (clips, n) => (handleTrimRightVideo t clips, n)
  | EditOp.split t, (clips, n) => splitVideoAtPlayhead t clips n

/-- A sequence of editing operations, applied left to right. -/
def applyEditOps (ops : List EditOp) (s : List TimelineClip × Nat) : List TimelineClip × Nat :=
  ops.foldl (fun s op => applyEditOp op s) s

/-- Two clips occupy disjoint half-open intervals [start, start+duration);
touching endpoints are not an overlap. -/
def ClipsDisjoint (a b : TimelineClip) : Prop :=
  a.start + a.duration ≤ b.start ∨ b.start + b.duration ≤ a.start

instance (a b : TimelineClip) : Decidable (ClipsDisjoint a b) :=
  inferInstanceAs (Decidable (a.start + a.duration ≤ b.start ∨ b.start + b.duration ≤ a.start))

/-- Pairwise no-overlap across a clip list. -/
def NoOverlap (l : List TimelineClip) : Prop := l.Pairwise ClipsDisjoint

instance (l : List TimelineClip) : Decidable (NoOverlap l) :=
  inferInstanceAs (Decidable (l.Pairwise ClipsDisjoint))

/-- The clip list is gapless from a given start: each clip begins exactly
where the previous one ends. -/
def PackedFrom : ℚ → List TimelineClip → Prop
  | _, [] => True
  | a, c :: rest => c.start = a ∧ PackedFrom (a + c.duration) rest

instance instDecidablePackedFrom : (a : ℚ) → (l : List TimelineClip) → Decidable (PackedFrom a l)
  | _, [] => Decidable.isTrue trivial
  | a, c :: rest =>
    have : Decidable (PackedFrom (a + c.duration) rest) := instDecidablePackedFrom _ _
    inferInstanceAs (Decidable (c.start = a ∧ PackedFrom (a + c.duration) rest))

/-- The interval of the first clip is contained in the interval of the
second. -/
def IntervalSub (a b : TimelineClip) : Prop :=
  b.start ≤ a.start ∧ a.start + a.duration ≤ b.start + b.duration

/-- Every clip on the list has nonnegative duration. -/
def DurNonneg (l : List TimelineClip) : Prop := ∀ c ∈ l, 0 ≤ c.duration

/-- A bare video clip with the given id and geometry, used for concrete
scenarios. -/
def mkClip (id : Nat) (s d o : ℚ) : TimelineClip :=
  { id := id
    type := ClipType.video
    src := ""
    name := ""
    start := s
    duration := d
    offset := o
    filter := Option.none
    transitionIn := Option.none
    transitionInDuration := Option.none
    transitionOut := Option.none
    transitionOutDuration := Option.none }

/-! Helper lemmas. -/

theorem le_foldl_maxf {α : Type} (f : α → ℚ) (l : List α) (a : ℚ) :
    a ≤ l.foldl (fun m c => max m (f c)) a := by
  induction l generalizing a with
  | nil => exact le_refl a
  | cons c l ih => exact le_trans (le_max_left a (f c)) (ih (max a (f c)))

theorem foldl_maxf_max {α : Type} (f : α → ℚ) (l : List α) (a b : ℚ) :
    l.foldl (fun m c => max m (f c)) (max a b) = max a (l.foldl (fun m c => max m (f c)) b) := by
  induction l generalizing b with
  | nil => rfl
  | cons c l ih =>
    simp only [List.foldl_cons]
    rw [max_assoc]
    exact ih (max b (f c))

theorem calculateProjectDuration_eq (clips : List TimelineClip) (audio : List AudioClip) :
    calculateProjectDuration clips audio =
      max (max (clips.foldl (fun m c => max m (c.start + c.duration)) 0)
               (audio.foldl (fun m c => max m (c.start + c.duration)) 0)) 0 := rfl

theorem trimLeftVideoClip_eq (t : ℚ) (c : TimelineClip) :
    trimLeftVideoClip t c =
      if c.start + epsilon < t ∧ t < c.start + c.duration - epsilon then
        { c with start := t, duration := c.start + c.duration - t, offset := c.offset + (t - c.start) }
      else c := rfl

theorem trimRightVideoClip_eq (t : ℚ) (c : TimelineClip) :
    trimRightVideoClip t c =
      if c.start + epsilon < t ∧ t < c.start + c.duration - epsilon then
        { c with duration := t - c.start }
      else c := rfl

theorem trimLeftAudioClip_eq (t : ℚ) (c : AudioClip) :
    trimLeftAudioClip t c =
      if c.start + epsilon < t ∧ t < c.start + c.duration - epsilon then
        { c with start := t, duration := c.start + c.duration - t, offset := c.offset + (t - c.start) }
      else c := rfl

theorem trimRightAudioClip_eq (t : ℚ) (c : AudioClip) :
    trimRightAudioClip t c =
      if c.start + epsilon < t ∧ t < c.start + c.duration - epsilon then
        { c with duration := t - c.start }
      else c := rfl

theorem epsilon_pos : (0 : ℚ) < epsilon := by norm_num [epsilon]

theorem getOpacity_eq (fadeIn fadeOut duration currentTime : ℚ) :
    getOpacity fadeIn fadeOut duration currentTime =
      max 0 (min 1
        (if 0 < fadeOut ∧ 0 < duration ∧ duration - fadeOut < currentTime then
          (duration - currentTime) / fadeOut
        else if 0 < fadeIn ∧ currentTime < fadeIn then currentTime / fadeIn
        else 1)) := rfl

/-! Claim theorems. -/

/-- Claim C5: the derived total duration of an empty timeline is the 10
second ruler floor, and in general composing the Timeline ruler length with
calculateProjectDuration yields the maximum of the floor and of every video
and audio clip end. -/
theorem totalDuration_floor_ten :
    timelineDuration (calculateProjectDuration [] []) = 10 ∧
    ∀ (clips : List TimelineClip) (audio : List AudioClip),
      timelineDuration (calculateProjectDuration clips audio) =
        max 10 (((clips.map fun c => c.start + c.duration) ++
                 (audio.map fun a => a.start + a.duration)).foldl max 0) := by
  constructor
  · with_unfolding_all decide
  · intro clips audio
    rw [calculateProjectDuration_eq, List.foldl_append, List.foldl_map, List.foldl_map]
    set V := clips.foldl (fun m c => max m (c.start + c.duration)) 0 with hV
    have h0V : (0 : ℚ) ≤ V := le_foldl_maxf _ clips 0
    have hVmax : max V 0 = V := max_eq_left h0V
    have : (audio.foldl (fun x y => max x (y.start + y.duration)) V) =
        max V (audio.foldl (fun m c => max m (c.start + c.duration)) 0) := by
      calc audio.foldl (fun x y => max x (y.start + y.duration)) V
          = audio.foldl (fun x y => max x (y.start + y.duration)) (max V 0) := by rw [hVmax]
        _ = max V (audio.foldl (fun m c => max m (c.start + c.duration)) 0) :=
            foldl_maxf_max _ audio V 0
    rw [this]
    set A := audio.foldl (fun m c => max m (c.start + c.duration)) 0 with hA
    have h0A : (0 : ℚ) ≤ A := le_foldl_maxf _ audio 0
    have : max (max V A) 0 = max V A := max_eq_left (le_trans h0A (le_max_right V A))
    rw [timelineDuration, this, max_comm]

/-- Claim C4 counterexample: trim-right at playhead 0.5 on the clip
[0, 10) produces duration 1/2, which is below the 1 second MIN_DURATION
floor the claim asserts; no clamping to 1 second happens. -/
theorem playheadTrim_below_one_second :
    handleTrimRightVideo (1 / 2) [mkClip 0 0 10 0] = [mkClip 0 0 (1 / 2) 0] ∧
    (1 / 2 : ℚ) < 1 := by
  with_unfolding_all decide

/-- Claim C4 (amended): the playhead trim handlers enforce no 1 second
floor; a clip is either left unchanged (the playhead is not strictly
inside it with the 0.01 epsilon guard) or trimmed to a duration that
exceeds 0.01 but may be arbitrarily smaller than 1. -/
theorem playheadTrim_epsilon_floor :
    ∀ (t : ℚ) (c : TimelineClip) (a : AudioClip),
      (trimLeftVideoClip t c = c ∨ epsilon < (trimLeftVideoClip t c).duration) ∧
      (trimRightVideoClip t c = c ∨ epsilon < (trimRightVideoClip t c).duration) ∧
      (trimLeftAudioClip t a = a ∨ epsilon < (trimLeftAudioClip t a).duration) ∧
      (trimRightAudioClip t a = a ∨ epsilon < (trimRightAudioClip t a).duration) := by
  intro t c a
  refine ⟨?_, ?_, ?_, ?_⟩
  · rw [trimLeftVideoClip_eq]
    by_cases h : c.start + epsilon < t ∧ t < c.start + c.duration - epsilon
    · rw [if_pos h]; right; simp only; linarith [h.2]
    · rw [if_neg h]; left; rfl
  · rw [trimRightVideoClip_eq]
    by_cases h : c.start + epsilon < t ∧ t < c.start + c.duration - epsilon
    · rw [if_pos h]; right; simp only; linarith [h.1]
    · rw [if_neg h]; left; rfl
  · rw [trimLeftAudioClip_eq]
    by_cases h : a.start + epsilon < t ∧ t < a.start + a.duration - epsilon
    · rw [if_pos h]; right; simp only; linarith [h.2]
    · rw [if_neg h]; left; rfl
  · rw [trimRightAudioClip_eq]
    by_cases h : a.start + epsilon < t ∧ t < a.start + a.duration - epsilon
    · rw [if_pos h]; right; simp only; linarith [h.1]
    · rw [if_neg h]; left; rfl

/-- Claim C9 counterexample: at playhead exactly start + 0.01 the delete
handler removes the clip although the playhead does not strictly exceed
start + epsilon, because its guard is non-strict on the left edge (unlike
the split/trim guard). -/
theorem deleteAtPlayhead_left_edge :
    handleDeleteVideo (1 / 100) [mkClip 0 0 5 0] = [] ∧
    ¬((mkClip 0 0 5 0).start + epsilon < 1 / 100) := by
  with_unfolding_all decide

/-- Claim C9 (amended): deleteAtPlayhead removes exactly the video and
audio clips satisfying start + 0.01 <= t < start + duration - 0.01 (left
edge inclusive), and the survivors are kept in order, completely unchanged
(no ripple). -/
theorem deleteAtPlayhead_guard_no_ripple :
    ∀ (t : ℚ) (clips : List TimelineClip) (audio : List AudioClip),
      (handleDeleteVideo t clips).Sublist clips ∧
      (handleDeleteAudio t audio).Sublist audio ∧
      (∀ c, c ∈ handleDeleteVideo t clips ↔
        c ∈ clips ∧ ¬(c.start + epsilon ≤ t ∧ t < c.start + c.duration - epsilon)) ∧
      (∀ a, a ∈ handleDeleteAudio t audio ↔
        a ∈ audio ∧ ¬(a.start + epsilon ≤ t ∧ t < a.start + a.duration - epsilon)) := by
  intro t clips audio
  refine ⟨List.filter_sublist _, List.filter_sublist _, ?_, ?_⟩
  · intro c
    simp only [handleDeleteVideo, List.mem_filter, not_and, Bool.not_eq_true', Bool.and_eq_false_iff,
      decide_eq_false_iff_not, not_lt, not_le]
    refine and_congr_right fun _ => ⟨fun h hle => ?_, fun h => ?_⟩
    · rcases h with h | h
      · exact absurd hle (not_le.mpr h)
      · exact h
    · by_cases hA : c.start + epsilon ≤ t
      · exact Or.inr (h hA)
      · exact Or.inl (not_le.mp hA)
  · intro a
    simp only [handleDeleteAudio, List.mem_filter, not_and, Bool.not_eq_true', Bool.and_eq_false_iff,
      decide_eq_false_iff_not, not_lt, not_le]
    refine and_congr_right fun _ => ⟨fun h hle => ?_, fun h => ?_⟩
    · rcases h with h | h
      · exact absurd hle (not_le.mpr h)
      · exact h
    · by_cases hA : a.start + epsilon ≤ t
      · exact Or.inr (h hA)
      · exact Or.inl (not_le.mp hA)

/-- Claim C8 counterexample: handleFileUpload inserts a video clip even
when the probed metadata duration is non-finite or non-positive — the
probe result is used unchecked, so nothing is rejected. -/
theorem mediaImport_nonfinite_inserted :
    importVideoFile (ProbeResult.metadata JSNum.posInf) [] 0 =
      [{ id := 0, type := ClipType.video, start := JSNum.num 0, duration := JSNum.posInf, offset := 0 }] ∧
    JSNum.isFinite JSNum.posInf = false ∧
    importVideoFile (ProbeResult.metadata (JSNum.num (-2))) [] 1 =
      [{ id := 1, type := ClipType.video, start := JSNum.num 0, duration := JSNum.num (-2), offset := 0 }] ∧
    JSNum.gtZero (JSNum.num (-2)) = false := by
  with_unfolding_all decide

/-- Claim C8 (amended): media import always inserts exactly one clip per
successfully uploaded file; a successfully probed video duration is used
as-is (even non-finite or non-positive), the 5 second fallback applies only
when the probe errors, images always default to 5 seconds, and only the
audio path substitutes the 3 second fallback for non-finite or
non-positive metadata. -/
theorem mediaImport_fallbacks :
    ∀ (p : ProbeResult) (prev : List ImportClip) (id : Nat),
      (importVideoFile p prev id).length = prev.length + 1 ∧
      (∀ d, probedVideoDuration (ProbeResult.metadata d) = d) ∧
      probedVideoDuration ProbeResult.err = JSNum.num 5 ∧
      importImageFile prev id =
        prev ++ [{ id := id, type := ClipType.image, start := sumImportDurations prev,
                   duration := JSNum.num 5, offset := 0 }] ∧
      (∀ d, (d.isFinite && d.gtZero) = false →
        probedAudioDuration (ProbeResult.metadata d) = JSNum.num 3) ∧
      probedAudioDuration ProbeResult.err = JSNum.num 3 := by
  intro p prev id
  refine ⟨?_, fun d => rfl, rfl, rfl, ?_, rfl⟩
  · simp [importVideoFile]
  · intro d hd
    simp [probedAudioDuration, hd]

/-- Claim C8 witness for the amended theorem: concrete fallback
evaluations. -/
theorem mediaImport_fallbacks_witness :
    (importVideoFile ProbeResult.err [] 3).length = ([] : List ImportClip).length + 1 ∧
    probedAudioDuration (ProbeResult.metadata JSNum.nan) = JSNum.num 3 :=
  ⟨(mediaImport_fallbacks ProbeResult.err [] 3).1,
   (mediaImport_fallbacks ProbeResult.err [] 3).2.2.2.2.1 JSNum.nan (by with_unfolding_all decide)⟩

/-- Claim C7 counterexample: with fadeIn = 2 and a clip spanning [10, 15),
at global time 10.5 the VideoPlayer opacity (anchored at global time 0) is
1, but the AIAssistant renderer computes 0.25 because its ramp restarts at
the clip start — so the rendered fade is not globally anchored in both
cited implementations. -/
theorem fadeAnchor_disagreement :
    transitionEffectOpacity 2 0 (21 / 2) 10 5 Option.none Option.none = 1 / 4 ∧
    getOpacity 2 0 20 (21 / 2) = 1 ∧
    (1 / 4 : ℚ) ≠ 1 := by
  with_unfolding_all decide

/-- Claim C7 (amended): VideoPlayer.getOpacity anchors the linear fade
ramps at global time 0 and at the global duration, while the VideoPlayer
inside AIAssistant.tsx anchors the same fadeIn ramp at each clip's own
start (opacity = timeInClip / fadeIn). -/
theorem fadeRamp_anchoring :
    ∀ (fadeIn fadeOut duration currentTime clipStart clipDuration : ℚ),
      (0 < fadeIn → 0 ≤ currentTime → currentTime < fadeIn →
        ¬(0 < fadeOut ∧ 0 < duration ∧ duration - fadeOut < currentTime) →
        getOpacity fadeIn fadeOut duration currentTime = currentTime / fadeIn) ∧
      (0 < fadeOut → 0 < duration → duration - fadeOut < currentTime → currentTime ≤ duration →
        getOpacity fadeIn fadeOut duration currentTime = (duration - currentTime) / fadeOut) ∧
      (0 < fadeIn → currentTime - clipStart < fadeIn →
        transitionEffectOpacity fadeIn fadeOut currentTime clipStart clipDuration
          Option.none Option.none = (currentTime - clipStart) / fadeIn) := by
  intro fadeIn fadeOut duration currentTime clipStart clipDuration
  refine ⟨?_, ?_, ?_⟩
  · intro h1 h2 h3 h4
    rw [getOpacity_eq, if_neg h4, if_pos ⟨h1, h3⟩]
    rw [min_eq_right (by exact (div_le_one h1).mpr h3.le)]
    rw [max_eq_right (div_nonneg h2 h1.le)]
  · intro h1 h2 h3 h4
    rw [getOpacity_eq, if_pos ⟨h1, h2, h3⟩]
    rw [min_eq_right (by exact (div_le_one h1).mpr (by linarith))]
    rw [max_eq_right (div_nonneg (by linarith) h1.le)]
  · intro h1 h2
    simp only [transitionEffectOpacity, transitionTagActive, Bool.false_eq_true, and_false,
      if_false, if_pos (And.intro h1 h2)]

/-- Claim C7 witness for the amended theorem: concrete anchored-fade
evaluations. -/
theorem fadeRamp_anchoring_witness :
    getOpacity 2 0 20 1 = 1 / 2 ∧
    transitionEffectOpacity 2 0 11 10 5 Option.none Option.none = 1 / 2 :=
  ⟨by
    have h := (fadeRamp_anchoring 2 0 20 1 0 0).1 (by norm_num) (by norm_num) (by norm_num)
      (by norm_num)
    rw [h],
   by
    have h := (fadeRamp_anchoring 2 0 20 11 10 5).2.2 (by norm_num) (by norm_num)
    rw [h]
    norm_num⟩

theorem splitOneVideo_eq (t : ℚ) (c : TimelineClip) (n : Nat) :
    splitOneVideo t c n =
      if c.start + epsilon < t ∧ t < c.start + c.duration - epsilon then
        ([{ c with
              id := n
              duration := t - c.start
              transitionOut := Option.none
              transitionOutDuration := Option.none },
          { c with
              id := n + 1
              start := t
              duration := c.duration - (t - c.start)
              offset := c.offset + (t - c.start)
              transitionIn := Option.none
              transitionInDuration := Option.none }], n + 2)
      else ([c], n) := rfl

theorem packedFrom_recalcFrom (l : List TimelineClip) (a : ℚ) :
    PackedFrom a (recalcFrom a l) := by
  induction l generalizing a with
  | nil => trivial
  | cons c rest ih => exact ⟨rfl, ih (a + c.duration)⟩

theorem packedFrom_buildHighlights (ranges : List (ℚ × ℚ)) (orig : TimelineClip)
    (tt : TransitionType) (ft : FilterType) (a : ℚ) (n i : Nat) :
    PackedFrom a (buildHighlights orig tt ft ranges a n i) := by
  induction ranges generalizing a n i with
  | nil => trivial
  | cons r rest ih => exact ⟨rfl, ih (a + (r.2 - r.1)) (n + 1) (i + 1)⟩

/-- Claim C2: an epsilon-guarded active clip is replaced by exactly the
left piece (original start and offset, duration t - s, transitionOut
cleared) and the right piece (start t, duration d - (t - s), offset
o + (t - s), transitionIn cleared); the durations sum to the original and
the two intervals partition the original interval exactly; an inactive
clip passes through the split untouched, and the full handler processes
the clip list pointwise in order. -/
theorem splitAtPlayhead_lossless :
    ∀ (t : ℚ) (c : TimelineClip) (n : Nat),
      (c.start + epsilon < t ∧ t < c.start + c.duration - epsilon →
        splitOneVideo t c n =
          ([{ c with
                id := n
                duration := t - c.start
                transitionOut := Option.none
                transitionOutDuration := Option.none },
            { c with
                id := n + 1
                start := t
                duration := c.duration - (t - c.start)
                offset := c.offset + (t - c.start)
                transitionIn := Option.none
                transitionInDuration := Option.none }], n + 2) ∧
        (t - c.start) + (c.duration - (t - c.start)) = c.duration ∧
        c.start + (t - c.start) = t ∧
        t + (c.duration - (t - c.start)) = c.start + c.duration) ∧
      (¬(c.start + epsilon < t ∧ t < c.start + c.duration - epsilon) →
        splitOneVideo t c n = ([c], n)) ∧
      (∀ rest : List TimelineClip,
        splitVideoAtPlayhead t (c :: rest) n =
          ((splitOneVideo t c n).1 ++ (splitVideoAtPlayhead t rest (splitOneVideo t c n).2).1,
           (splitVideoAtPlayhead t rest (splitOneVideo t c n).2).2)) := by
  intro t c n
  refine ⟨fun h => ⟨?_, by ring, by ring, by ring⟩, fun h => ?_, fun rest => rfl⟩
  · rw [splitOneVideo_eq, if_pos h]
  · rw [splitOneVideo_eq, if_neg h]

/-- Claim C2 witness: the spec scenario, splitting the clip
start 0, duration 10, offset 0 at playhead 4. -/
theorem splitAtPlayhead_lossless_witness :
    splitOneVideo 4 (mkClip 7 0 10 0) 0 =
      ([{ mkClip 7 0 10 0 with
            id := 0
            duration := (4 : ℚ) - (mkClip 7 0 10 0).start
            transitionOut := Option.none
            transitionOutDuration := Option.none },
        { mkClip 7 0 10 0 with
            id := 0 + 1
            start := (4 : ℚ)
            duration := (mkClip 7 0 10 0).duration - ((4 : ℚ) - (mkClip 7 0 10 0).start)
            offset := (mkClip 7 0 10 0).offset + ((4 : ℚ) - (mkClip 7 0 10 0).start)
            transitionIn := Option.none
            transitionInDuration := Option.none }], 0 + 2) :=
  ((splitAtPlayhead_lossless 4 (mkClip 7 0 10 0) 0).1 (by with_unfolding_all decide)).1

/-- Claim C10: each structural AI edit (remove_clip, trim_clip,
split_clip, keep_only_highlights), whenever its guard lets it modify the
clip list, ends in a recalculateTimeline-style re-pack: the resulting
video track is gapless from 0, each clip starting at the sum of the
durations before it. -/
theorem aiStructuralEdits_repack :
    ∀ (a : AIStructAction) (clips : List TimelineClip) (n : Nat),
      aiActionApplies a clips → PackedFrom 0 (applyAIClips a clips n) := by
  intro a clips n h
  cases a with
  | removeClip targetId =>
    obtain ⟨htid, hlen⟩ := h
    match targetId, htid with
    | some tid, _ =>
      simp only [applyAIClips]
      rw [if_pos hlen]
      exact packedFrom_recalcFrom _ 0
  | trimClip targetId startOffset endOffset =>
    match targetId, h with
    | some tid, _ =>
      exact packedFrom_recalcFrom _ 0
  | splitClip timestamp =>
    match timestamp, h with
    | some ts, h =>
      obtain ⟨idx, hidx⟩ := Option.isSome_iff_exists.mp h
      have hlt : idx < clips.length := (List.findIdx?_eq_some_iff_findIdx_eq.mp hidx).1
      simp only [applyAIClips, hidx, List.getElem?_eq_getElem hlt]
      exact packedFrom_recalcFrom _ 0
  | keepOnlyHighlights ranges tt ft =>
    obtain ⟨hr, hf⟩ := h
    obtain ⟨orig, horig⟩ := Option.isSome_iff_exists.mp hf
    have hne : clips ≠ [] := List.ne_nil_of_mem (List.mem_of_find?_eq_some horig)
    simp only [applyAIClips]
    rw [if_pos ⟨hr, hne⟩, horig]
    exact packedFrom_buildHighlights ranges orig tt ft 0 n 0

/-- Claim C10 witness: removing clip 1 of a gapped two-clip track through
the AI action leaves a gapless track. -/
theorem aiStructuralEdits_repack_witness :
    PackedFrom 0 (applyAIClips (AIStructAction.removeClip (some 1))
      [mkClip 0 0 5 0, mkClip 1 7 5 0] 2) :=
  aiStructuralEdits_repack (AIStructAction.removeClip (some 1))
    [mkClip 0 0 5 0, mkClip 1 7 5 0] 2 ⟨rfl, by norm_num⟩

theorem setStart_self (c : TimelineClip) : { c with start := c.start } = c := rfl

theorem rippleWalk_cons (cursor : ℚ) (c : TimelineClip) (rest : List TimelineClip) :
    rippleWalk cursor (c :: rest) =
      { c with start := max c.start cursor } ::
        rippleWalk (max c.start cursor + c.duration) rest := rfl

theorem rippleWalk_mono (l : List TimelineClip) (cursor : ℚ) (c : TimelineClip) (hc : c ∈ l) :
    ∃ s, { c with start := s } ∈ rippleWalk cursor l ∧ c.start ≤ s := by
  induction l generalizing cursor with
  | nil => exact absurd hc (List.not_mem_nil c)
  | cons a l ih =>
    rcases List.mem_cons.mp hc with rfl | h
    · refine ⟨max c.start cursor, ?_, le_max_left _ _⟩
      rw [rippleWalk_cons]
      exact List.mem_cons_self _ _
    · obtain ⟨s, hmem, hle⟩ := ih (max a.start cursor + a.duration) h
      refine ⟨s, ?_, hle⟩
      rw [rippleWalk_cons]
      exact List.mem_cons_of_mem _ hmem

theorem handleMoveVideoClip_eq (clipId : Nat) (newStart : ℚ) (clips : List TimelineClip) :
    handleMoveVideoClip clipId newStart clips =
      match clips.find? (fun clip => clip.id == clipId) with
      | Option.none => clips
      | some _ =>
        rippleWalk 0 (sortByStart (clips.map fun clip =>
          if clip.id == clipId then
            { clip with start := max 0 ((jsRound (newStart / frameStep) : ℚ) * frameStep) }
          else clip)) := rfl

/-- Claim C3: moveClip never gives any clip other than the moved one an
earlier start than it had (later clips are only pushed forward, never
pulled back into gaps), and in the spec scenario moving B (start 5,
duration 5) to 2 next to A (start 0, duration 5) leaves the whole track
unchanged, B staying at 5. -/
theorem moveClip_forward_only :
    (∀ (clipId : Nat) (newStart : ℚ) (clips : List TimelineClip) (c : TimelineClip),
      c ∈ clips → c.id ≠ clipId →
      ∃ s, { c with start := s } ∈ handleMoveVideoClip clipId newStart clips ∧ c.start ≤ s) ∧
    handleMoveVideoClip 1 2 [mkClip 0 0 5 0, mkClip 1 5 5 0] =
      [mkClip 0 0 5 0, mkClip 1 5 5 0] := by
  constructor
  · intro clipId newStart clips c hc hne
    rcases hfind : clips.find? (fun clip => clip.id == clipId) with _ | f
    · rw [handleMoveVideoClip_eq, hfind]
      exact ⟨c.start, by rw [setStart_self]; exact hc, le_refl c.start⟩
    · rw [handleMoveVideoClip_eq, hfind]
      have hid : ((c.id == clipId) : Bool) = false := by
        exact beq_eq_false_iff_ne.mpr hne
      have hcmap : c ∈ clips.map fun clip =>
          if clip.id == clipId then
            { clip with start := max 0 ((jsRound (newStart / frameStep) : ℚ) * frameStep) }
          else clip := by
        have := List.mem_map_of_mem (f := fun clip =>
          if clip.id == clipId then
            { clip with start := max 0 ((jsRound (newStart / frameStep) : ℚ) * frameStep) }
          else clip) hc
        simpa [hid] using this
      have hsorted : c ∈ sortByStart (clips.map fun clip =>
          if clip.id == clipId then
            { clip with start := max 0 ((jsRound (newStart / frameStep) : ℚ) * frameStep) }
          else clip) := by
        exact (List.mergeSort_perm _ _).mem_iff.mpr hcmap
      exact rippleWalk_mono _ 0 c hsorted
  · with_unfolding_all decide

/-- Claim C3 witness: the non-moved clip A keeps a start no smaller than
its own in the concrete scenario. -/
theorem moveClip_forward_only_witness :
    ∃ s, { mkClip 0 0 5 0 with start := s } ∈
        handleMoveVideoClip 1 2 [mkClip 0 0 5 0, mkClip 1 5 5 0] ∧
      (mkClip 0 0 5 0).start ≤ s :=
  moveClip_forward_only.1 1 2 [mkClip 0 0 5 0, mkClip 1 5 5 0] (mkClip 0 0 5 0)
    (List.mem_cons_self _ _) (by with_unfolding_all decide)

theorem rippleWalk_start_ge :
    ∀ (l : List TimelineClip) (cursor : ℚ), (∀ c ∈ l, 0 ≤ c.duration) →
      ∀ x ∈ rippleWalk cursor l, cursor ≤ x.start := by
  intro l
  induction l with
  | nil => intro cursor _ x hx; exact absurd hx (List.not_mem_nil x)
  | cons a l ih =>
    intro cursor hdur x hx
    rw [rippleWalk_cons] at hx
    rcases List.mem_cons.mp hx with rfl | hx
    · exact le_max_right a.start cursor
    · have h1 := ih (max a.start cursor + a.duration)
        (fun c hc => hdur c (List.mem_cons_of_mem a hc)) x hx
      have h2 : 0 ≤ a.duration := hdur a (List.mem_cons_self a l)
      calc cursor ≤ max a.start cursor := le_max_right _ _
        _ ≤ max a.start cursor + a.duration := le_add_of_nonneg_right h2
        _ ≤ x.start := h1

theorem rippleWalk_noOverlap :
    ∀ (l : List TimelineClip) (cursor : ℚ), (∀ c ∈ l, 0 ≤ c.duration) →
      NoOverlap (rippleWalk cursor l) := by
  intro l
  induction l with
  | nil => intro cursor _; exact List.Pairwise.nil
  | cons a l ih =>
    intro cursor hdur
    rw [rippleWalk_cons]
    refine List.Pairwise.cons ?_ (ih _ (fun c hc => hdur c (List.mem_cons_of_mem a hc)))
    intro x hx
    exact Or.inl (rippleWalk_start_ge l _ (fun c hc => hdur c (List.mem_cons_of_mem a hc)) x hx)

theorem rippleWalk_durations :
    ∀ (l : List TimelineClip) (cursor : ℚ) (x : TimelineClip), x ∈ rippleWalk cursor l →
      ∃ c ∈ l, x.duration = c.duration := by
  intro l
  induction l with
  | nil => intro cursor x hx; exact absurd hx (List.not_mem_nil x)
  | cons a l ih =>
    intro cursor x hx
    rw [rippleWalk_cons] at hx
    rcases List.mem_cons.mp hx with rfl | hx
    · exact ⟨a, List.mem_cons_self a l, rfl⟩
    · obtain ⟨c, hc, hd⟩ := ih _ x hx
      exact ⟨c, List.mem_cons_of_mem a hc, hd⟩

theorem moveMap_duration (cid : Nat) (d : ℚ) (c : TimelineClip) :
    (if c.id == cid then { c with start := d } else c).duration = c.duration := by
  by_cases h : (c.id == cid) = true
  · rw [if_pos h]
  · rw [if_neg h]

theorem handleMoveVideoClip_inv :
    ∀ (cid : Nat) (ns : ℚ) (clips : List TimelineClip),
      DurNonneg clips → NoOverlap clips →
      DurNonneg (handleMoveVideoClip cid ns clips) ∧
        NoOverlap (handleMoveVideoClip cid ns clips) := by
  intro cid ns clips hdur hov
  rw [handleMoveVideoClip_eq]
  rcases hfind : clips.find? (fun clip => clip.id == cid) with _ | f
  · rw [hfind]
    exact ⟨hdur, hov⟩
  · rw [hfind]
    have hdurS : ∀ c ∈ sortByStart (clips.map fun clip =>
        if clip.id == cid then
          { clip with start := max 0 ((jsRound (ns / frameStep) : ℚ) * frameStep) }
        else clip), 0 ≤ c.duration := by
      intro c hc
      have hc2 := (List.mergeSort_perm _ _).mem_iff.mp hc
      obtain ⟨o, ho, rfl⟩ := List.mem_map.mp hc2
      rw [moveMap_duration]
      exact hdur o ho
    constructor
    · intro x hx
      obtain ⟨c, hc, hxd⟩ := rippleWalk_durations _ 0 x hx
      rw [hxd]
      exact hdurS c hc
    · exact rippleWalk_noOverlap _ 0 hdurS

theorem sub_disjoint {p a q b : TimelineClip} (hp : IntervalSub p a) (hq : IntervalSub q b)
    (h : ClipsDisjoint a b) : ClipsDisjoint p q := by
  rcases h with h | h
  · exact Or.inl (le_trans hp.2 (le_trans h hq.1))
  · exact Or.inr (le_trans hq.2 (le_trans h hp.1))

theorem map_shrink_noOverlap (f : TimelineClip → TimelineClip)
    (hf : ∀ c, IntervalSub (f c) c) :
    ∀ l, NoOverlap l → NoOverlap (l.map f) := by
  intro l h
  show (l.map f).Pairwise ClipsDisjoint
  rw [List.pairwise_map]
  exact h.imp fun hab => sub_disjoint (hf _) (hf _) hab

theorem trimLeftVideoClip_sub (t : ℚ) (c : TimelineClip) :
    IntervalSub (trimLeftVideoClip t c) c := by
  rw [trimLeftVideoClip_eq]
  by_cases h : c.start + epsilon < t ∧ t < c.start + c.duration - epsilon
  · rw [if_pos h]
    refine ⟨?_, ?_⟩
    · show c.start ≤ t
      linarith [epsilon_pos, h.1]
    · show t + (c.start + c.duration - t) ≤ c.start + c.duration
      linarith
  · rw [if_neg h]
    exact ⟨le_refl _, le_refl _⟩

theorem trimRightVideoClip_sub (t : ℚ) (c : TimelineClip) :
    IntervalSub (trimRightVideoClip t c) c := by
  rw [trimRightVideoClip_eq]
  by_cases h : c.start + epsilon < t ∧ t < c.start + c.duration - epsilon
  · rw [if_pos h]
    refine ⟨le_refl _, ?_⟩
    show c.start + (t - c.start) ≤ c.start + c.duration
    linarith [epsilon_pos, h.2]
  · rw [if_neg h]
    exact ⟨le_refl _, le_refl _⟩

theorem trimLeftVideoClip_dur (t : ℚ) (c : TimelineClip) (h0 : 0 ≤ c.duration) :
    0 ≤ (trimLeftVideoClip t c).duration := by
  rw [trimLeftVideoClip_eq]
  by_cases h : c.start + epsilon < t ∧ t < c.start + c.duration - epsilon
  · rw [if_pos h]
    show (0 : ℚ) ≤ c.start + c.duration - t
    linarith [epsilon_pos, h.2]
  · rw [if_neg h]
    exact h0

theorem trimRightVideoClip_dur (t : ℚ) (c : TimelineClip) (h0 : 0 ≤ c.duration) :
    0 ≤ (trimRightVideoClip t c).duration := by
  rw [trimRightVideoClip_eq]
  by_cases h : c.start + epsilon < t ∧ t < c.start + c.duration - epsilon
  · rw [if_pos h]
    show (0 : ℚ) ≤ t - c.start
    linarith [epsilon_pos, h.1]
  · rw [if_neg h]
    exact h0

theorem splitOneVideo_sub (t : ℚ) (c : TimelineClip) (n : Nat) :
    ∀ p ∈ (splitOneVideo t c n).1, IntervalSub p c := by
  intro p hp
  rw [splitOneVideo_eq] at hp
  by_cases h : c.start + epsilon < t ∧ t < c.start + c.duration - epsilon
  · rw [if_pos h] at hp
    rcases List.mem_cons.mp hp with rfl | hp
    · refine ⟨le_refl _, ?_⟩
      show c.start + (t - c.start) ≤ c.start + c.duration
      linarith [epsilon_pos, h.2]
    · rw [List.mem_singleton.mp hp]
      refine ⟨?_, ?_⟩
      · show c.start ≤ t
        linarith [epsilon_pos, h.1]
      · show t + (c.duration - (t - c.start)) ≤ c.start + c.duration
        linarith
  · rw [if_neg h] at hp
    rw [List.mem_singleton.mp hp]
    exact ⟨le_refl _, le_refl _⟩

theorem splitOneVideo_noOverlap (t : ℚ) (c : TimelineClip) (n : Nat) :
    NoOverlap (splitOneVideo t c n).1 := by
  show (splitOneVideo t c n).1.Pairwise ClipsDisjoint
  rw [splitOneVideo_eq]
  by_cases h : c.start + epsilon < t ∧ t < c.start + c.duration - epsilon
  · rw [if_pos h]
    refine List.Pairwise.cons ?_ ?_
    · intro x hx
      rw [List.mem_singleton.mp hx]
      exact Or.inl (le_of_eq (by ring))
    · refine List.Pairwise.cons (fun b hb => absurd hb (List.not_mem_nil b)) List.Pairwise.nil
  · rw [if_neg h]
    exact List.Pairwise.cons (fun b hb => absurd hb (List.not_mem_nil b)) List.Pairwise.nil

theorem splitOneVideo_dur (t : ℚ) (c : TimelineClip) (n : Nat) (h0 : 0 ≤ c.duration) :
    ∀ p ∈ (splitOneVideo t c n).1, 0 ≤ p.duration := by
  intro p hp
  rw [splitOneVideo_eq] at hp
  by_cases h : c.start + epsilon < t ∧ t < c.start + c.duration - epsilon
  · rw [if_pos h] at hp
    rcases List.mem_cons.mp hp with rfl | hp
    · show (0 : ℚ) ≤ t - c.start
      linarith [epsilon_pos, h.1]
    · rw [List.mem_singleton.mp hp]
      show (0 : ℚ) ≤ c.duration - (t - c.start)
      linarith [epsilon_pos, h.2]
  · rw [if_neg h] at hp
    rw [List.mem_singleton.mp hp]
    exact h0

theorem splitVideoAtPlayhead_cons (t : ℚ) (c : TimelineClip) (rest : List TimelineClip) (n : Nat) :
    splitVideoAtPlayhead t (c :: rest) n =
      ((splitOneVideo t c n).1 ++ (splitVideoAtPlayhead t rest (splitOneVideo t c n).2).1,
       (splitVideoAtPlayhead t rest (splitOneVideo t c n).2).2) := rfl

theorem splitVideoAtPlayhead_mem :
    ∀ (l : List TimelineClip) (t : ℚ) (n : Nat) (x : TimelineClip),
      x ∈ (splitVideoAtPlayhead t l n).1 → ∃ c ∈ l, IntervalSub x c := by
  intro l
  induction l with
  | nil => intro t n x hx; exact absurd hx (List.not_mem_nil x)
  | cons a l ih =>
    intro t n x hx
    rw [splitVideoAtPlayhead_cons] at hx
    rcases List.mem_append.mp hx with hx | hx
    · exact ⟨a, List.mem_cons_self a l, splitOneVideo_sub t a n x hx⟩
    · obtain ⟨c, hc, hsub⟩ := ih t _ x hx
      exact ⟨c, List.mem_cons_of_mem a hc, hsub⟩

theorem splitVideoAtPlayhead_noOverlap :
    ∀ (l : List TimelineClip) (t : ℚ) (n : Nat), NoOverlap l →
      NoOverlap (splitVideoAtPlayhead t l n).1 := by
  intro l
  induction l with
  | nil => intro t n _; exact List.Pairwise.nil
  | cons a l ih =>
    intro t n h
    have h1 : ∀ c ∈ l, ClipsDisjoint a c := (List.pairwise_cons.mp h).1
    have h2 : NoOverlap l := (List.pairwise_cons.mp h).2
    show ((splitOneVideo t a n).1 ++
      (splitVideoAtPlayhead t l (splitOneVideo t a n).2).1).Pairwise ClipsDisjoint
    rw [List.pairwise_append]
    refine ⟨splitOneVideo_noOverlap t a n, ih t _ h2, ?_⟩
    intro p hp q hq
    obtain ⟨c, hc, hq2⟩ := splitVideoAtPlayhead_mem l t _ q hq
    exact sub_disjoint (splitOneVideo_sub t a n p hp) hq2 (h1 c hc)

theorem splitVideoAtPlayhead_dur :
    ∀ (l : List TimelineClip) (t : ℚ) (n : Nat), DurNonneg l →
      DurNonneg (splitVideoAtPlayhead t l n).1 := by
  intro l
  induction l with
  | nil => intro t n _ x hx; exact absurd hx (List.not_mem_nil x)
  | cons a l ih =>
    intro t n h x hx
    rw [splitVideoAtPlayhead_cons] at hx
    rcases List.mem_append.mp hx with hx | hx
    · exact splitOneVideo_dur t a n (h a (List.mem_cons_self a l)) x hx
    · exact ih t _ (fun c hc => h c (List.mem_cons_of_mem a hc)) x hx

theorem applyEditOp_inv :
    ∀ (op : EditOp) (clips : List TimelineClip) (n : Nat), op.isImport = false →
      DurNonneg clips → NoOverlap clips →
      DurNonneg (applyEditOp op (clips, n)).1 ∧ NoOverlap (applyEditOp op (clips, n)).1 := by
  intro op clips n himp hdur hov
  cases op with
  | importMedia d => exact absurd himp (by simp [EditOp.isImport])
  | move cid ns => exact handleMoveVideoClip_inv cid ns clips hdur hov
  | trimLeft t =>
    constructor
    · intro x hx
      obtain ⟨o, ho, rfl⟩ := List.mem_map.mp hx
      exact trimLeftVideoClip_dur t o (hdur o ho)
    · exact map_shrink_noOverlap _ (trimLeftVideoClip_sub t) clips hov
  | trimRight t =>
    constructor
    · intro x hx
      obtain ⟨o, ho, rfl⟩ := List.mem_map.mp hx
      exact trimRightVideoClip_dur t o (hdur o ho)
    · exact map_shrink_noOverlap _ (trimRightVideoClip_sub t) clips hov
  | split t =>
    exact ⟨splitVideoAtPlayhead_dur clips t n hdur, splitVideoAtPlayhead_noOverlap clips t n hov⟩

theorem applyEditOps_inv :
    ∀ (ops : List EditOp) (clips : List TimelineClip) (n : Nat),
      (∀ op ∈ ops, op.isImport = false) → DurNonneg clips → NoOverlap clips →
      DurNonneg (applyEditOps ops (clips, n)).1 ∧ NoOverlap (applyEditOps ops (clips, n)).1 := by
  intro ops
  induction ops with
  | nil => intro clips n _ hdur hov; exact ⟨hdur, hov⟩
  | cons op ops ih =>
    intro clips n hops hdur hov
    have h1 := applyEditOp_inv op clips n (hops op (List.mem_cons_self op ops)) hdur hov
    exact ih (applyEditOp op (clips, n)).1 (applyEditOp op (clips, n)).2
      (fun o ho => hops o (List.mem_cons_of_mem op ho)) h1.1 h1.2

/-- Claim C1 counterexample: starting from the empty (trivially
non-overlapping) track, import a 3 second clip, move it to 5, then import
a 5 second clip: the new clip is inserted at the sum of the existing
durations (3), inside the gap-shifted first clip [5, 8), so the video
track ends up overlapping — file import does not preserve the invariant. -/
theorem import_breaks_noOverlap :
    NoOverlap ([] : List TimelineClip) ∧
    ¬ NoOverlap (applyEditOps
      [EditOp.importMedia 3, EditOp.move 0 5, EditOp.importMedia 5] ([], 0)).1 := by
  with_unfolding_all decide

/-- Claim C1 (amended): every sequence of moveClip, trim-left,
trim-right and split operations starting from a pairwise non-overlapping
video track with nonnegative durations keeps the track pairwise
non-overlapping (half-open intervals, touching endpoints allowed); adding
a clip via file import is excluded, since it can overlap a gapped track. -/
theorem editOps_preserve_noOverlap :
    ∀ (ops : List EditOp) (clips : List TimelineClip) (n : Nat),
      (∀ op ∈ ops, op.isImport = false) →
      (∀ c ∈ clips, 0 ≤ c.duration) → NoOverlap clips →
      NoOverlap (applyEditOps ops (clips, n)).1 :=
  fun ops clips n hops hdur hov => (applyEditOps_inv ops clips n hops hdur hov).2

/-- Claim C1 witness: a concrete move, split and double trim on a
two-clip track keeps the track non-overlapping. -/
theorem editOps_preserve_noOverlap_witness :
    NoOverlap (applyEditOps
      [EditOp.move 1 2, EditOp.split 7, EditOp.trimLeft 2, EditOp.trimRight 8]
      ([mkClip 0 0 5 0, mkClip 1 5 5 0], 2)).1 :=
  editOps_preserve_noOverlap
    [EditOp.move 1 2, EditOp.split 7, EditOp.trimLeft 2, EditOp.trimRight 8]
    [mkClip 0 0 5 0, mkClip 1 5 5 0] 2
    (by with_unfolding_all decide)
    (by with_unfolding_all decide)
    (by with_unfolding_all decide)

theorem recordHistory_eq (s : HistoryState) (h : EditorHistory) :
    recordHistory s h =
      if s.clips = [] ∧ s.subtitles = [] then h
      else
        { history :=
            (if 50 ≤ (h.history.take (h.historyIndex + 1).toNat).length then
              (h.history.take (h.historyIndex + 1).toNat).drop 1
            else h.history.take (h.historyIndex + 1).toNat) ++ [s]
          historyIndex := min (h.historyIndex + 1) 49 } := rfl

theorem handleUndo_eq (cur : HistoryState) (h : EditorHistory) :
    handleUndo cur h =
      if h.historyIndex ≤ 0 then (cur, h)
      else
        match h.history[(h.historyIndex - 1).toNat]? with
        | some prevState => (prevState, { h with historyIndex := h.historyIndex - 1 })
        | Option.none => (cur, { h with historyIndex := h.historyIndex - 1 }) := rfl

theorem handleRedo_eq (cur : HistoryState) (h : EditorHistory) :
    handleRedo cur h =
      if (h.history.length : ℤ) - 1 ≤ h.historyIndex then (cur, h)
      else
        match h.history[(h.historyIndex + 1).toNat]? with
        | some nextState => (nextState, { h with historyIndex := h.historyIndex + 1 })
        | Option.none => (cur, { h with historyIndex := h.historyIndex + 1 }) := rfl

/-- Claim C6 counterexample: deleting the only clip of a project with no
subtitles yields an empty state the history effect refuses to record, so a
subsequent undo is a no-op and does not restore the prior one-clip
snapshot. -/
theorem undo_skips_empty_snapshot :
    (handleUndo
      ⟨handleDeleteVideo (5 / 2) [mkClip 0 0 5 0], [], []⟩
      (recordHistory ⟨handleDeleteVideo (5 / 2) [mkClip 0 0 5 0], [], []⟩
        ⟨[⟨[mkClip 0 0 5 0], [], []⟩], 0⟩)).1
    ≠ (⟨[mkClip 0 0 5 0], [], []⟩ : HistoryState) := by
  with_unfolding_all decide

/-- Claim C6 (amended): for every editing operation whose resulting
(clips, audioClips, subtitles) state keeps at least one video clip or one
subtitle (otherwise the history effect skips the snapshot), and whenever
the cursor points at the recorded pre-operation snapshot within the 50
entry ring buffer, recording the post state then undoing restores the
pre-operation snapshot exactly, and redoing after that undo restores the
post-operation snapshot exactly. -/
theorem undoRedo_roundtrip :
    ∀ (pre post : HistoryState) (h : EditorHistory),
      0 ≤ h.historyIndex → h.historyIndex ≤ 49 →
      h.history[h.historyIndex.toNat]? = some pre →
      ¬(post.clips = [] ∧ post.subtitles = []) →
      (handleUndo post (recordHistory post h)).1 = pre ∧
      (handleRedo (handleUndo post (recordHistory post h)).1
        (handleUndo post (recordHistory post h)).2).1 = post := by
  intro pre post h h0 h49 hget hne
  obtain ⟨hlen, -⟩ := List.getElem?_eq_some.mp hget
  have hLlen : (h.history.take (h.historyIndex + 1).toNat).length = h.historyIndex.toNat + 1 := by
    rw [List.length_take]; omega
  by_cases hcase : h.historyIndex.toNat + 1 < 50
  · have hrec : recordHistory post h =
        { history := h.history.take (h.historyIndex + 1).toNat ++ [post]
          historyIndex := h.historyIndex + 1 } := by
      rw [recordHistory_eq, if_neg hne, if_neg (by omega),
        min_eq_left (by omega : h.historyIndex + 1 ≤ 49)]
    have hundo : handleUndo post (recordHistory post h) =
        (pre, { history := h.history.take (h.historyIndex + 1).toNat ++ [post]
                historyIndex := h.historyIndex }) := by
      rw [hrec, handleUndo_eq]
      dsimp only
      rw [if_neg (by omega : ¬(h.historyIndex + 1 ≤ 0))]
      rw [show (h.historyIndex + 1 - 1).toNat = h.historyIndex.toNat from by omega]
      rw [List.getElem?_append_left
        (by omega : h.historyIndex.toNat < (h.history.take (h.historyIndex + 1).toNat).length)]
      rw [List.getElem?_take, if_pos (by omega : h.historyIndex.toNat < (h.historyIndex + 1).toNat),
        hget]
      dsimp only
      rw [Int.add_sub_cancel]
    rw [hundo]
    refine ⟨rfl, ?_⟩
    dsimp only
    rw [handleRedo_eq]
    dsimp only
    rw [show (h.history.take (h.historyIndex + 1).toNat ++ [post]).length
        = h.historyIndex.toNat + 2 from by rw [List.length_append, hLlen]; rfl]
    rw [if_neg (by omega : ¬(((h.historyIndex.toNat + 2 : Nat) : ℤ) - 1 ≤ h.historyIndex))]
    rw [show (h.historyIndex + 1).toNat = h.historyIndex.toNat + 1 from by omega]
    rw [List.getElem?_append_right
      (by rw [List.length_take]; omega :
        (h.history.take (h.historyIndex.toNat + 1)).length ≤ h.historyIndex.toNat + 1)]
    rw [show (h.history.take (h.historyIndex.toNat + 1)).length = h.historyIndex.toNat + 1
        from by rw [List.length_take]; omega,
      Nat.sub_self]
    rfl
  · have hi49 : h.historyIndex = 49 := by omega
    have hLlen50 : (h.history.take (h.historyIndex + 1).toNat).length = 50 := by omega
    have hDlen : ((h.history.take (h.historyIndex + 1).toNat).drop 1).length = 49 := by
      rw [List.length_drop, hLlen50]
    have hrec : recordHistory post h =
        { history := (h.history.take (h.historyIndex + 1).toNat).drop 1 ++ [post]
          historyIndex := 49 } := by
      rw [recordHistory_eq, if_neg hne, if_pos (by omega),
        min_eq_right (by omega : (49 : ℤ) ≤ h.historyIndex + 1)]
    have hundo : handleUndo post (recordHistory post h) =
        (pre, { history := (h.history.take (h.historyIndex + 1).toNat).drop 1 ++ [post]
                historyIndex := 48 }) := by
      rw [hrec, handleUndo_eq]
      dsimp only
      rw [if_neg (by omega : ¬((49 : ℤ) ≤ 0))]
      rw [show ((49 : ℤ) - 1).toNat = 48 from by omega]
      rw [List.getElem?_append_left
        (by omega : 48 < ((h.history.take (h.historyIndex + 1).toNat).drop 1).length)]
      rw [List.getElem?_drop]
      rw [List.getElem?_take, if_pos (by omega : 1 + 48 < (h.historyIndex + 1).toNat)]
      rw [show (1 + 48 : Nat) = h.historyIndex.toNat from by omega, hget]
      dsimp only
      norm_num
    rw [hundo]
    refine ⟨rfl, ?_⟩
    dsimp only
    rw [handleRedo_eq]
    dsimp only
    rw [show ((h.history.take (h.historyIndex + 1).toNat).drop 1 ++ [post]).length
        = 50 from by rw [List.length_append, hDlen]; rfl]
    rw [if_neg (by omega : ¬(((50 : Nat) : ℤ) - 1 ≤ (48 : ℤ)))]
    rw [show ((48 : ℤ) + 1).toNat = 49 from by omega]
    rw [List.getElem?_append_right
      (by omega : ((h.history.take (h.historyIndex + 1).toNat).drop 1).length ≤ 49)]
    rw [hDlen, Nat.sub_self]
    rfl

/-- Claim C6 witness: a concrete one-entry history, an operation keeping a
clip, then undo and redo restoring the two snapshots. -/
theorem undoRedo_roundtrip_witness :
    (handleUndo (⟨[mkClip 0 0 3 0], [], []⟩ : HistoryState)
      (recordHistory ⟨[mkClip 0 0 3 0], [], []⟩
        ⟨[⟨[mkClip 0 0 5 0], [], []⟩], 0⟩)).1 = ⟨[mkClip 0 0 5 0], [], []⟩ ∧
    (handleRedo
      (handleUndo (⟨[mkClip 0 0 3 0], [], []⟩ : HistoryState)
        (recordHistory ⟨[mkClip 0 0 3 0], [], []⟩
          ⟨[⟨[mkClip 0 0 5 0], [], []⟩], 0⟩)).1
      (handleUndo (⟨[mkClip 0 0 3 0], [], []⟩ : HistoryState)
        (recordHistory ⟨[mkClip 0 0 3 0], [], []⟩
          ⟨[⟨[mkClip 0 0 5 0], [], []⟩], 0⟩)).2).1 = ⟨[mkClip 0 0 3 0], [], []⟩ :=
  undoRedo_roundtrip ⟨[mkClip 0 0 5 0], [], []⟩ ⟨[mkClip 0 0 3 0], [], []⟩
    ⟨[⟨[mkClip 0 0 5 0], [], []⟩], 0⟩
    (by norm_num) (by norm_num) rfl (by simp)

end Lumina
